import Mathlib

/-!
Verification development for three ClickHouse source fragments:
`src/Processors/Transforms/WatermarkTransform.cpp`,
`src/Disks/FakeDiskTransaction.h`, and `src/Planner/PlannerContext.h`.

Each C++ entity is shallowly embedded as executable Lean definitions,
and the specified properties are proved (or refuted) about them.
-/

namespace WatermarkModel

/-- A chunk: an ordered sequence of columns (each a list of 32-bit
unsigned values, modelled as `Nat`), plus a row count.  Mirrors
`DB::Chunk` as used by `WatermarkTransform::transform`. -/
structure Chunk where
  columns : List (List Nat)
  num_rows : Nat
deriving DecidableEq, Repr

/-- Immutable construction parameters of `WatermarkTransform`
(`block_header` is reduced to its list of column names, which is all
`getPositionByName` consults). -/
structure Config where
  block_header : List String
  window_column_name : String
  max_timestamp : Nat
  lateness_upper_bound : Nat
deriving Repr

/-- Mutable state of a `WatermarkTransform` instance: the accumulated
watermark (`UInt32 max_watermark = 0;`) and the set of late signals
(`std::set<UInt32> late_signals;`, embedded as its sorted,
duplicate-free list of elements, matching the ordered-set container). -/
structure State where
  max_watermark : Nat
  late_signals : List Nat
deriving DecidableEq, Repr

/-- Initial state of a freshly constructed transform. -/
def State.initial : State := { max_watermark := 0, late_signals := [] }

/-- `std::set<UInt32>::insert` on the sorted-list embedding: place the
element at its ordered position, collapsing duplicates. -/
def setInsert (l : List Nat) (x : Nat) : List Nat :=
  match l with
  | [] => [x]
  | y :: t => if x < y then x :: y :: t else if x = y then y :: t else y :: setInsert t x

/-- One iteration of the loop body in `WatermarkTransform::transform`
(lines 44-50): update the watermark with `ts`, and insert `ts` into
`late_signals` when lateness tracking is on and `ts` is late. -/
def stepTs (cfg : Config) (s : State) (ts : Nat) : State :=
  let s1 := if ts > s.max_watermark then { s with max_watermark := ts } else s
  if cfg.lateness_upper_bound ≠ 0 ∧ ts ≤ cfg.lateness_upper_bound then
    { s1 with late_signals := setInsert s1.late_signals ts }
  else
    s1

/-- `Block::getPositionByName` on the embedded header: index of the
first column with the given name, `none` when absent (the C++ version
throws in that case). -/
def getPositionByName (header : List String) (name : String) : Option Nat :=
  header.findIdx? (fun c => c = name)

/-- The window-end column of a chunk, located through the header as
`transform` does. -/
def chunkWindowValues (cfg : Config) (c : Chunk) : Option (List Nat) :=
  match getPositionByName cfg.block_header cfg.window_column_name with
  | none => none
  | some idx => c.columns.get? idx

/-- `WatermarkTransform::transform`: locate the window-end column,
fold the loop body over its values, and reattach the same columns with
the same row count.  `none` models the exception thrown when the
window column is missing from the header (or the chunk is narrower
than the resolved index). -/
def transform (cfg : Config) (s : State) (chunk : Chunk) : Option (State × Chunk) :=
  match chunkWindowValues cfg chunk with
  | none => none
  | some wend_data => some (wend_data.foldl (stepTs cfg) s, chunk)

/-- Process a whole stream of chunks in order. -/
def runChunks (cfg : Config) (s : State) : List Chunk → Option State
  | [] => some s
  | c :: cs =>
    match transform cfg s c with
    | none => none
    | some (s1, _) => runChunks cfg s1 cs

/-- All window-end values of a stream, in processing order. -/
def streamWindowValues (cfg : Config) (chunks : List Chunk) : Option (List Nat) :=
  match chunks with
  | [] => some []
  | c :: cs =>
    match chunkWindowValues cfg c, streamWindowValues cfg cs with
    | some v, some vs => some (v ++ vs)
    | _, _ => none

/-- A notification sent to the owning `StorageWindowView`. -/
inductive Notif where
  | updateMaxTimestamp (ts : Nat)
  | updateMaxWatermark (ts : Nat)
  | addFireSignal (signals : List Nat)
deriving DecidableEq, Repr

/-- `WatermarkTransform::~WatermarkTransform` (lines 25-34): the
sequence of store notifications issued at teardown, in program order. -/
def teardown (cfg : Config) (s : State) : List Notif :=
  (if cfg.max_timestamp ≠ 0 then [Notif.updateMaxTimestamp cfg.max_timestamp] else []) ++
  (if s.max_watermark ≠ 0 then [Notif.updateMaxWatermark s.max_watermark] else []) ++
  (if cfg.lateness_upper_bound ≠ 0 then [Notif.addFireSignal s.late_signals] else [])

/- Basic lemmas about the loop body and its fold. -/

lemma stepTs_max_watermark (cfg : Config) (s : State) (ts : Nat) :
    (stepTs cfg s ts).max_watermark = max s.max_watermark ts := by
  unfold stepTs
  by_cases h : ts > s.max_watermark <;>
    by_cases h2 : cfg.lateness_upper_bound ≠ 0 ∧ ts ≤ cfg.lateness_upper_bound <;>
    simp [h, h2] <;> omega

lemma foldl_stepTs_max_watermark (cfg : Config) (l : List Nat) (s : State) :
    (l.foldl (stepTs cfg) s).max_watermark = l.foldl max s.max_watermark := by
  induction l generalizing s with
  | nil => rfl
  | cons a t ih => simp [List.foldl_cons, ih, stepTs_max_watermark]

lemma mem_setInsert (l : List Nat) (x a : Nat) :
    a ∈ setInsert l x ↔ a = x ∨ a ∈ l := by
  induction l with
  | nil => simp [setInsert]
  | cons y t ih =>
    by_cases h1 : x < y
    · simp [setInsert, h1]
    · by_cases h2 : x = y
      · subst h2; simp [setInsert, h1]
      · simp [setInsert, h1, h2, ih]; tauto

lemma mem_stepTs_late_signals (cfg : Config) (s : State) (ts x : Nat) :
    x ∈ (stepTs cfg s ts).late_signals ↔
      x ∈ s.late_signals ∨
        (cfg.lateness_upper_bound ≠ 0 ∧ x = ts ∧ ts ≤ cfg.lateness_upper_bound) := by
  unfold stepTs
  by_cases h : ts > s.max_watermark <;>
    by_cases h2 : cfg.lateness_upper_bound ≠ 0 ∧ ts ≤ cfg.lateness_upper_bound <;>
    simp [h, h2, mem_setInsert] <;> tauto

lemma mem_foldl_stepTs_late_signals (cfg : Config) (l : List Nat) (s : State) (x : Nat) :
    x ∈ (l.foldl (stepTs cfg) s).late_signals ↔
      x ∈ s.late_signals ∨
        (cfg.lateness_upper_bound ≠ 0 ∧ x ∈ l ∧ x ≤ cfg.lateness_upper_bound) := by
  induction l generalizing s with
  | nil => simp
  | cons a t ih =>
    simp only [List.foldl_cons, ih, mem_stepTs_late_signals, List.mem_cons]
    constructor
    · rintro ((hs | ⟨hb, rfl, hle⟩) | ⟨hb, hm, hle⟩)
      · exact Or.inl hs
      · exact Or.inr ⟨hb, Or.inl rfl, hle⟩
      · exact Or.inr ⟨hb, Or.inr hm, hle⟩
    · rintro (hs | ⟨hb, (rfl | hm), hle⟩)
      · exact Or.inl (Or.inl hs)
      · exact Or.inl (Or.inr ⟨hb, rfl, hle⟩)
      · exact Or.inr ⟨hb, hm, hle⟩

lemma transform_eq (cfg : Config) (s : State) (c : Chunk) (s1 : State) (c1 : Chunk)
    (h : transform cfg s c = some (s1, c1)) :
    c1 = c ∧ ∃ w, chunkWindowValues cfg c = some w ∧ s1 = w.foldl (stepTs cfg) s := by
  unfold transform at h
  cases hw : chunkWindowValues cfg c with
  | none => rw [hw] at h; exact absurd h (by simp)
  | some w =>
    rw [hw] at h
    simp only [Option.some.injEq, Prod.mk.injEq] at h
    exact ⟨h.2.symm, w, rfl, h.1.symm⟩

end WatermarkModel

namespace DiskModel

/-- Write mode of `IDisk::writeFile` (`WriteMode`). -/
inductive WriteMode where
  | Rewrite
  | Append
deriving DecidableEq, Repr

/-- A call made on the wrapped `IDisk` object, with its arguments.
Argument types are embedded as: paths and opaque payloads as `String`,
sizes as `Nat`, a target disk (`shared_ptr<IDisk>` / `IDisk &`) as a
`Nat` identifier, a `NameSet` as `List String`, and a
`RemoveBatchRequest` as a list of (path, if_exists) pairs. -/
inductive DiskEvent where
  | createDirectory (path : String)
  | createDirectories (path : String)
  | clearDirectory (path : String)
  | moveDirectory (from_path to_path : String)
  | replaceFile (from_path to_path : String)
  | copy (from_path : String) (to_disk : Nat) (to_path : String)
  | copyDirectoryContent (from_dir : String) (to_disk : Nat) (to_dir : String)
  | copyFile (from_file_path : String) (to_disk : Nat) (to_file_path : String)
  | writeFile (path : String) (buf_size : Nat) (mode : WriteMode) (settings : String)
  | removeFile (path : String)
  | removeFileIfExists (path : String)
  | removeDirectory (path : String)
  | removeRecursive (path : String)
  | removeSharedFile (path : String) (keep_shared_data : Bool)
  | removeSharedRecursive (path : String) (keep_all_shared_data : Bool)
      (file_names_remove_metadata_only : List String)
  | removeSharedFileIfExists (path : String) (keep_shared_data : Bool)
  | removeSharedFiles (files : List (String × Bool)) (keep_all_batch_data : Bool)
      (file_names_remove_metadata_only : List String)
  | setLastModified (path : String) (timestamp : Nat)
  | setReadOnly (path : String)
  | createHardLink (src_path dst_path : String)
  | truncateFile (path : String) (size : Nat)
deriving DecidableEq, Repr

/- Each method of `FakeDiskTransaction` is embedded as the list of
calls it performs on the wrapped disk, in order. -/
namespace FakeDiskTransaction

def commit : List DiskEvent := []

def createDirectory (path : String) : List DiskEvent :=
  [DiskEvent.createDirectory path]

def createDirectories (path : String) : List DiskEvent :=
  [DiskEvent.createDirectories path]

/-- `FakeDiskTransaction::clearDirectory` (lines 27-30): note the body
calls `disk.createDirectory(path)`. -/
def clearDirectory (path : String) : List DiskEvent :=
  [DiskEvent.createDirectory path]

def moveDirectory (from_path to_path : String) : List DiskEvent :=
  [DiskEvent.moveDirectory from_path to_path]

def replaceFile (from_path to_path : String) : List DiskEvent :=
  [DiskEvent.replaceFile from_path to_path]

def copy (from_path : String) (to_disk : Nat) (to_path : String) : List DiskEvent :=
  [DiskEvent.copy from_path to_disk to_path]

def copyDirectoryContent (from_dir : String) (to_disk : Nat) (to_dir : String) : List DiskEvent :=
  [DiskEvent.copyDirectoryContent from_dir to_disk to_dir]

def copyFile (from_file_path : String) (to_disk : Nat) (to_file_path : String) : List DiskEvent :=
  [DiskEvent.copyFile from_file_path to_disk to_file_path]

def writeFile (path : String) (buf_size : Nat) (mode : WriteMode) (settings : String) :
    List DiskEvent :=
  [DiskEvent.writeFile path buf_size mode settings]

def removeFile (path : String) : List DiskEvent :=
  [DiskEvent.removeFile path]

def removeFileIfExists (path : String) : List DiskEvent :=
  [DiskEvent.removeFileIfExists path]

def removeDirectory (path : String) : List DiskEvent :=
  [DiskEvent.removeDirectory path]

def removeRecursive (path : String) : List DiskEvent :=
  [DiskEvent.removeRecursive path]

def removeSharedFile (path : String) (keep_shared_data : Bool) : List DiskEvent :=
  [DiskEvent.removeSharedFile path keep_shared_data]

def removeSharedRecursive (path : String) (keep_all_shared_data : Bool)
    (file_names_remove_metadata_only : List String) : List DiskEvent :=
  [DiskEvent.removeSharedRecursive path keep_all_shared_data file_names_remove_metadata_only]

def removeSharedFileIfExists (path : String) (keep_shared_data : Bool) : List DiskEvent :=
  [DiskEvent.removeSharedFileIfExists path keep_shared_data]

def removeSharedFiles (files : List (String × Bool)) (keep_all_batch_data : Bool)
    (file_names_remove_metadata_only : List String) : List DiskEvent :=
  [DiskEvent.removeSharedFiles files keep_all_batch_data file_names_remove_metadata_only]

def setLastModified (path : String) (timestamp : Nat) : List DiskEvent :=
  [DiskEvent.setLastModified path timestamp]

def setReadOnly (path : String) : List DiskEvent :=
  [DiskEvent.setReadOnly path]

def createHardLink (src_path dst_path : String) : List DiskEvent :=
  [DiskEvent.createHardLink src_path dst_path]

def truncateFile (path : String) (size : Nat) : List DiskEvent :=
  [DiskEvent.truncateFile path size]

end FakeDiskTransaction

/-- Modelled from the spec: "a pass-through transaction wrapper over a
disk abstraction" — the behaviour the spec ascribes to
`clearDirectory`, namely forwarding to the identically-named operation
`IDisk::clearDirectory` so that the directory at `path` is cleared. -/
def passThroughClearDirectory (path : String) : List DiskEvent :=
  [DiskEvent.clearDirectory path]

end DiskModel

namespace PlannerModel

/-- `DB::NameAndTypePair`, with the data type opaque. -/
structure NameAndTypePair where
  name : String
  type : String
deriving DecidableEq, Repr

/-- `DB::TableExpressionColumns` (PlannerContext.h lines 24-111): its
four containers.  A `NameSet` (`std::unordered_set`) is embedded as a
duplicate-free insertion list, and the `unordered_map` as an
association list where `emplace` keeps the first binding of a key. -/
structure TableExpressionColumns where
  columns : List NameAndTypePair
  columns_names : List String
  alias_columns_names : List String
  column_name_to_column_identifier : List (String × String)
deriving DecidableEq, Repr

/-- `std::unordered_set::insert`: no-op when the element is present. -/
def nsInsert (ns : List String) (n : String) : List String :=
  if ns.contains n then ns else ns ++ [n]

/-- `std::unordered_map::emplace`: no-op when the key is present. -/
def mapEmplace (m : List (String × String)) (k v : String) : List (String × String) :=
  if (m.map Prod.fst).contains k then m else m ++ [(k, v)]

namespace TableExpressionColumns

/-- `TableExpressionColumns::hasColumn`. -/
def hasColumn (s : TableExpressionColumns) (column_name : String) : Bool :=
  s.alias_columns_names.contains column_name || s.columns_names.contains column_name

/-- `TableExpressionColumns::addColumn`: returns the post-call state
and, when the column already exists, the thrown `LOGICAL_ERROR`
message; a throw leaves the object with its original state, since the
check precedes every mutation. -/
def addColumn (s : TableExpressionColumns) (column : NameAndTypePair)
    (column_identifier : String) : TableExpressionColumns × Option String :=
  if s.hasColumn column.name then
    (s, some "Column with name {} already exists")
  else
    ({ s with
        columns_names := nsInsert s.columns_names column.name,
        columns := s.columns ++ [column],
        column_name_to_column_identifier :=
          mapEmplace s.column_name_to_column_identifier column.name column_identifier },
      none)

/-- `TableExpressionColumns::getColumnIdentifierOrNull`:
`nullptr` becomes `none`. -/
def getColumnIdentifierOrNull (s : TableExpressionColumns) (column_name : String) :
    Option String :=
  s.column_name_to_column_identifier.lookup column_name

/-- `TableExpressionColumns::getColumnIdentifierOrThrow`: the thrown
`LOGICAL_ERROR` becomes `Except.error` with the message. -/
def getColumnIdentifierOrThrow (s : TableExpressionColumns) (column_name : String) :
    Except String String :=
  match s.column_name_to_column_identifier.lookup column_name with
  | none => Except.error "Column identifier for name {} does not exists"
  | some v => Except.ok v

end TableExpressionColumns

end PlannerModel

namespace WatermarkModel

lemma le_foldl_max (l : List Nat) : ∀ a : Nat, a ≤ l.foldl max a := by
  induction l with
  | nil => intro a; simp
  | cons b t ih => intro a; exact le_trans (le_max_left a b) (ih (max a b))

lemma foldl_max_eq_or_mem (l : List Nat) : ∀ a : Nat, l.foldl max a = a ∨ l.foldl max a ∈ l := by
  induction l with
  | nil => intro a; left; rfl
  | cons b t ih =>
    intro a
    rcases ih (max a b) with h | h
    · rcases max_choice a b with hm | hm
      · left; rw [List.foldl_cons, h, hm]
      · right; rw [List.foldl_cons, h, hm]; exact List.mem_cons_self b t
    · right; exact List.mem_cons_of_mem b h

lemma mem_le_foldl_max (l : List Nat) : ∀ (a v : Nat), v ∈ l → v ≤ l.foldl max a := by
  induction l with
  | nil => intro a v hv; cases hv
  | cons b t ih =>
    intro a v hv
    rcases List.mem_cons.mp hv with rfl | hv
    · exact le_trans (le_max_right a v) (le_foldl_max t (max a v))
    · exact ih (max a b) v hv

lemma runChunks_max_watermark (cfg : Config) (chunks : List Chunk) :
    ∀ (s0 s : State) (vals : List Nat),
      runChunks cfg s0 chunks = some s →
      streamWindowValues cfg chunks = some vals →
      s.max_watermark = vals.foldl max s0.max_watermark := by
  induction chunks with
  | nil =>
    intro s0 s vals hrun hvals
    simp only [runChunks, Option.some.injEq] at hrun
    simp only [streamWindowValues, Option.some.injEq] at hvals
    subst hrun; subst hvals; rfl
  | cons c cs ih =>
    intro s0 s vals hrun hvals
    simp only [runChunks] at hrun
    cases ht : transform cfg s0 c with
    | none => rw [ht] at hrun; cases hrun
    | some p =>
      obtain ⟨s1, c1⟩ := p
      rw [ht] at hrun
      obtain ⟨-, w, hw, hs1⟩ := transform_eq cfg s0 c s1 c1 ht
      simp only [streamWindowValues, hw] at hvals
      cases hvs : streamWindowValues cfg cs with
      | none => rw [hvs] at hvals; cases hvals
      | some vs =>
        rw [hvs] at hvals
        simp only [Option.some.injEq] at hvals
        subst hvals
        have hmw : s1.max_watermark = w.foldl max s0.max_watermark := by
          rw [hs1, foldl_stepTs_max_watermark]
        rw [ih s1 s vs hrun hvs, hmw, List.foldl_append]

lemma runChunks_mem_late_signals (cfg : Config) (chunks : List Chunk) :
    ∀ (s0 s : State) (vals : List Nat) (x : Nat),
      runChunks cfg s0 chunks = some s →
      streamWindowValues cfg chunks = some vals →
      (x ∈ s.late_signals ↔
        x ∈ s0.late_signals ∨
          (cfg.lateness_upper_bound ≠ 0 ∧ x ∈ vals ∧ x ≤ cfg.lateness_upper_bound)) := by
  induction chunks with
  | nil =>
    intro s0 s vals x hrun hvals
    simp only [runChunks, Option.some.injEq] at hrun
    simp only [streamWindowValues, Option.some.injEq] at hvals
    subst hrun; subst hvals
    simp
  | cons c cs ih =>
    intro s0 s vals x hrun hvals
    simp only [runChunks] at hrun
    cases ht : transform cfg s0 c with
    | none => rw [ht] at hrun; cases hrun
    | some p =>
      obtain ⟨s1, c1⟩ := p
      rw [ht] at hrun
      obtain ⟨-, w, hw, hs1⟩ := transform_eq cfg s0 c s1 c1 ht
      simp only [streamWindowValues, hw] at hvals
      cases hvs : streamWindowValues cfg cs with
      | none => rw [hvs] at hvals; cases hvals
      | some vs =>
        rw [hvs] at hvals
        simp only [Option.some.injEq] at hvals
        subst hvals
        rw [ih s1 s vs x hrun hvs, hs1, mem_foldl_stepTs_late_signals]
        simp only [List.mem_append]
        tauto

lemma runChunks_late_signals_bound (cfg : Config) (chunks : List Chunk) :
    ∀ (s0 s : State),
      (∀ ts ∈ s0.late_signals,
        cfg.lateness_upper_bound ≠ 0 ∧ ts ≤ cfg.lateness_upper_bound) →
      runChunks cfg s0 chunks = some s →
      ∀ ts ∈ s.late_signals,
        cfg.lateness_upper_bound ≠ 0 ∧ ts ≤ cfg.lateness_upper_bound := by
  induction chunks with
  | nil =>
    intro s0 s h0 hrun
    simp only [runChunks, Option.some.injEq] at hrun
    subst hrun; exact h0
  | cons c cs ih =>
    intro s0 s h0 hrun
    simp only [runChunks] at hrun
    cases ht : transform cfg s0 c with
    | none => rw [ht] at hrun; cases hrun
    | some p =>
      obtain ⟨s1, c1⟩ := p
      rw [ht] at hrun
      obtain ⟨-, w, hw, hs1⟩ := transform_eq cfg s0 c s1 c1 ht
      refine ih s1 s ?_ hrun
      intro ts hts
      rw [hs1, mem_foldl_stepTs_late_signals] at hts
      rcases hts with hts | ⟨hb, -, hle⟩
      · exact h0 ts hts
      · exact ⟨hb, hle⟩

lemma addFireSignal_mem_teardown (cfg : Config) (s : State) (S : List Nat) :
    Notif.addFireSignal S ∈ teardown cfg s ↔
      cfg.lateness_upper_bound ≠ 0 ∧ S = s.late_signals := by
  unfold teardown
  by_cases ht : cfg.max_timestamp ≠ 0 <;>
    by_cases hw : s.max_watermark ≠ 0 <;>
    by_cases hl : cfg.lateness_upper_bound ≠ 0 <;>
    simp [ht, hw, hl]

end WatermarkModel

namespace WatermarkModel

/-- Concrete configuration used by the witnesses: header with a single
`window_end` column, no max-timestamp seed, lateness bound 15
(spec scenario S3). -/
def cfgA : Config :=
  { block_header := ["window_end"], window_column_name := "window_end",
    max_timestamp := 0, lateness_upper_bound := 15 }

/-- First S3 chunk: window-end values [10, 20, 14]. -/
def cA1 : Chunk := { columns := [[10, 20, 14]], num_rows := 3 }

/-- Second S3 chunk: window-end values [30, 5]. -/
def cA2 : Chunk := { columns := [[30, 5]], num_rows := 2 }

/-- State after processing `cA1` from the initial state. -/
def sA1 : State := { max_watermark := 20, late_signals := [10, 14] }

/-- State after processing `cA1` then `cA2` from the initial state. -/
def sA : State := { max_watermark := 30, late_signals := [5, 10, 14] }

/-- C1: after all chunks are processed, the accumulated
`max_watermark` equals the maximum of the set of all values appearing
in the window-end column of any processed chunk, united with {0}: it
is the fold of `max` over those values starting from 0, it is either 0
or one of the values, and it dominates every value. -/
theorem spec_C1_max_correctness (cfg : Config) (chunks : List Chunk) (s : State)
    (vals : List Nat)
    (hrun : runChunks cfg State.initial chunks = some s)
    (hvals : streamWindowValues cfg chunks = some vals) :
    s.max_watermark = vals.foldl max 0 ∧
    (s.max_watermark = 0 ∨ s.max_watermark ∈ vals) ∧
    (∀ v ∈ vals, v ≤ s.max_watermark) := by
  have h := runChunks_max_watermark cfg chunks State.initial s vals hrun hvals
  refine ⟨h, ?_, ?_⟩
  · rw [h]; exact foldl_max_eq_or_mem vals 0
  · intro v hv; rw [h]; exact mem_le_foldl_max vals 0 v hv

/-- Witness for C1 at scenario S3. -/
theorem spec_C1_witness :
    sA.max_watermark = [10, 20, 14, 30, 5].foldl max 0 ∧
    (sA.max_watermark = 0 ∨ sA.max_watermark ∈ [10, 20, 14, 30, 5]) ∧
    (∀ v ∈ [10, 20, 14, 30, 5], v ≤ sA.max_watermark) :=
  spec_C1_max_correctness cfgA [cA1, cA2] sA [10, 20, 14, 30, 5] (by decide) (by decide)

/-- C2: a value `x` belongs to the late-signal set delivered at
teardown (that is, some `addFireSignal` notification carries a set
containing `x`) iff `lateness_upper_bound ≠ 0`, `x` occurs in the
window-end column of some processed chunk, and
`x ≤ lateness_upper_bound`. -/
theorem spec_C2_late_set_membership (cfg : Config) (chunks : List Chunk) (s : State)
    (vals : List Nat) (x : Nat)
    (hrun : runChunks cfg State.initial chunks = some s)
    (hvals : streamWindowValues cfg chunks = some vals) :
    (∃ S, Notif.addFireSignal S ∈ teardown cfg s ∧ x ∈ S) ↔
      (cfg.lateness_upper_bound ≠ 0 ∧ x ∈ vals ∧ x ≤ cfg.lateness_upper_bound) := by
  have hmem := runChunks_mem_late_signals cfg chunks State.initial s vals x hrun hvals
  simp only [State.initial, List.not_mem_nil, false_or] at hmem
  constructor
  · rintro ⟨S, hS, hxS⟩
    obtain ⟨hb, rfl⟩ := (addFireSignal_mem_teardown cfg s S).mp hS
    exact hmem.mp hxS
  · intro hx
    exact ⟨s.late_signals,
      (addFireSignal_mem_teardown cfg s s.late_signals).mpr ⟨hx.1, rfl⟩,
      hmem.mpr hx⟩

/-- Witness for C2 at scenario S3 with x = 5. -/
theorem spec_C2_witness :
    (∃ S, Notif.addFireSignal S ∈ teardown cfgA sA ∧ 5 ∈ S) ↔
      (cfgA.lateness_upper_bound ≠ 0 ∧ 5 ∈ [10, 20, 14, 30, 5] ∧
        5 ≤ cfgA.lateness_upper_bound) :=
  spec_C2_late_set_membership cfgA [cA1, cA2] sA [10, 20, 14, 30, 5] 5
    (by decide) (by decide)

/-- Configuration refuting C3: lateness bound 5, no seed. -/
def cfgC3 : Config :=
  { block_header := ["window_end"], window_column_name := "window_end",
    max_timestamp := 0, lateness_upper_bound := 5 }

/-- A chunk whose window-end column holds the single value 0. -/
def chunkC3 : Chunk := { columns := [[0]], num_rows := 1 }

/-- Counterexample to C3: processing a chunk whose window-end column
contains the value 0 with `lateness_upper_bound = 5` puts 0 into the
late-signal set, so not every element `ts` satisfies `0 < ts`. -/
theorem spec_C3_counterexample :
    runChunks cfgC3 State.initial [chunkC3] =
      some { max_watermark := 0, late_signals := [0] } ∧
    (0 : Nat) ∈ ({ max_watermark := 0, late_signals := [0] } : State).late_signals ∧
    ¬ (0 < (0 : Nat)) := by
  refine ⟨by decide, by decide, by decide⟩

/-- C3 as amended: every element `ts` of the late-signal set of a
state reached from the initial state satisfies
`ts ≤ lateness_upper_bound`, and the set is nonempty only when
`lateness_upper_bound ≠ 0`; 0 can be a member when it occurs in a
window-end column. -/
theorem spec_C3_amended_invariant (cfg : Config) (chunks : List Chunk) (s : State)
    (hrun : runChunks cfg State.initial chunks = some s) :
    ∀ ts ∈ s.late_signals,
      cfg.lateness_upper_bound ≠ 0 ∧ ts ≤ cfg.lateness_upper_bound := by
  refine runChunks_late_signals_bound cfg chunks State.initial s ?_ hrun
  intro ts hts
  exact absurd hts (List.not_mem_nil ts)

/-- Witness for the amended C3 at scenario S3, instantiated at the
late element 5. -/
theorem spec_C3_witness :
    cfgA.lateness_upper_bound ≠ 0 ∧ (5 : Nat) ≤ cfgA.lateness_upper_bound :=
  spec_C3_amended_invariant cfgA [cA1, cA2] sA (by decide) 5 (by decide)

/-- C4: whenever `transform` succeeds, the emitted chunk is the input
chunk itself: same row count, same columns in the same order, equal
values. -/
theorem spec_C4_pass_through (cfg : Config) (s : State) (c : Chunk)
    (s1 : State) (c1 : Chunk)
    (h : transform cfg s c = some (s1, c1)) :
    c1 = c ∧ c1.num_rows = c.num_rows ∧ c1.columns = c.columns := by
  obtain ⟨hc, -⟩ := transform_eq cfg s c s1 c1 h
  subst hc
  exact ⟨rfl, rfl, rfl⟩

/-- Witness for C4 on the first S3 chunk. -/
theorem spec_C4_witness :
    cA1 = cA1 ∧ cA1.num_rows = cA1.num_rows ∧ cA1.columns = cA1.columns :=
  spec_C4_pass_through cfgA State.initial cA1 sA1 cA1 (by decide)

/-- C6: processing a chunk never decreases `max_watermark`. -/
theorem spec_C6_monotone (cfg : Config) (s : State) (c : Chunk)
    (s1 : State) (c1 : Chunk)
    (h : transform cfg s c = some (s1, c1)) :
    s.max_watermark ≤ s1.max_watermark := by
  obtain ⟨-, w, -, hs1⟩ := transform_eq cfg s c s1 c1 h
  rw [hs1, foldl_stepTs_max_watermark]
  exact le_foldl_max w s.max_watermark

/-- Witness for C6 on the first S3 chunk. -/
theorem spec_C6_witness : State.initial.max_watermark ≤ sA1.max_watermark :=
  spec_C6_monotone cfgA State.initial cA1 sA1 cA1 (by decide)

end WatermarkModel

namespace WatermarkModel

lemma teardown_sublist (cfg : Config) (s : State) :
    List.Sublist (teardown cfg s)
      [Notif.updateMaxTimestamp cfg.max_timestamp,
       Notif.updateMaxWatermark s.max_watermark,
       Notif.addFireSignal s.late_signals] := by
  unfold teardown
  by_cases ht : cfg.max_timestamp ≠ 0 <;>
    by_cases hw : s.max_watermark ≠ 0 <;>
    by_cases hl : cfg.lateness_upper_bound ≠ 0 <;>
    simp [ht, hw, hl]

lemma updateMaxTimestamp_mem_teardown (cfg : Config) (s : State) (t : Nat) :
    Notif.updateMaxTimestamp t ∈ teardown cfg s ↔
      cfg.max_timestamp ≠ 0 ∧ t = cfg.max_timestamp := by
  unfold teardown
  by_cases ht : cfg.max_timestamp ≠ 0 <;>
    by_cases hw : s.max_watermark ≠ 0 <;>
    by_cases hl : cfg.lateness_upper_bound ≠ 0 <;>
    simp [ht, hw, hl]

lemma updateMaxWatermark_mem_teardown (cfg : Config) (s : State) (w : Nat) :
    Notif.updateMaxWatermark w ∈ teardown cfg s ↔
      s.max_watermark ≠ 0 ∧ w = s.max_watermark := by
  unfold teardown
  by_cases ht : cfg.max_timestamp ≠ 0 <;>
    by_cases hw : s.max_watermark ≠ 0 <;>
    by_cases hl : cfg.lateness_upper_bound ≠ 0 <;>
    simp [ht, hw, hl]

/-- C5: the teardown notification sequence is (a prefix-preserving
subsequence of) max-timestamp, then watermark, then late signals; a
max-timestamp notification is sent exactly when the seed is nonzero, a
watermark notification exactly when the accumulated watermark is
nonzero, and the late-signal set exactly when `lateness_upper_bound`
is nonzero. -/
theorem spec_C5_teardown_order (cfg : Config) (s : State) :
    List.Sublist (teardown cfg s)
      [Notif.updateMaxTimestamp cfg.max_timestamp,
       Notif.updateMaxWatermark s.max_watermark,
       Notif.addFireSignal s.late_signals] ∧
    (∀ t, Notif.updateMaxTimestamp t ∈ teardown cfg s ↔
      cfg.max_timestamp ≠ 0 ∧ t = cfg.max_timestamp) ∧
    (∀ w, Notif.updateMaxWatermark w ∈ teardown cfg s ↔
      s.max_watermark ≠ 0 ∧ w = s.max_watermark) ∧
    (∀ S, Notif.addFireSignal S ∈ teardown cfg s ↔
      cfg.lateness_upper_bound ≠ 0 ∧ S = s.late_signals) :=
  ⟨teardown_sublist cfg s,
   fun t => updateMaxTimestamp_mem_teardown cfg s t,
   fun w => updateMaxWatermark_mem_teardown cfg s w,
   fun S => addFireSignal_mem_teardown cfg s S⟩

lemma setInsert_idem (l : List Nat) (x : Nat) :
    setInsert (setInsert l x) x = setInsert l x := by
  induction l with
  | nil => simp [setInsert]
  | cons y t ih =>
    by_cases h1 : x < y
    · simp [setInsert, h1, lt_irrefl]
    · by_cases h2 : x = y
      · subst h2; simp [setInsert, h1, lt_irrefl]
      · simp [setInsert, h1, h2, ih]

/-- Scenario S5 configuration: lateness bound 10, no seed. -/
def cfgS5 : Config :=
  { block_header := ["window_end"], window_column_name := "window_end",
    max_timestamp := 0, lateness_upper_bound := 10 }

/-- Scenario S5 chunk: window-end values [7, 7, 7]. -/
def chunkS5 : Chunk := { columns := [[7, 7, 7]], num_rows := 3 }

/-- A chunk carrying the value 7 once. -/
def chunkS5once : Chunk := { columns := [[7]], num_rows := 1 }

/-- C8: processing a window-end value is idempotent on the stage
state, so duplicates collapse; concretely, values [7, 7, 7] with
`lateness_upper_bound = 10` produce the late set {7}, the same state
as processing 7 once. -/
theorem spec_C8_duplicates :
    (∀ (cfg : Config) (s : State) (ts : Nat),
        stepTs cfg (stepTs cfg s ts) ts = stepTs cfg s ts) ∧
    runChunks cfgS5 State.initial [chunkS5] =
      some { max_watermark := 7, late_signals := [7] } ∧
    runChunks cfgS5 State.initial [chunkS5] =
      runChunks cfgS5 State.initial [chunkS5once] := by
  refine ⟨?_, by decide, by decide⟩
  intro cfg s ts
  by_cases h2 : cfg.lateness_upper_bound ≠ 0 ∧ ts ≤ cfg.lateness_upper_bound <;>
    by_cases h1 : ts > s.max_watermark <;>
    simp [stepTs, h1, h2, lt_irrefl, setInsert_idem]

end WatermarkModel

namespace DiskModel

/-- C7: `FakeDiskTransaction::clearDirectory` does not forward to the
identically-named disk operation: at path "dir" it performs
`createDirectory("dir")` on the wrapped disk instead of clearing the
directory, diverging from the pass-through behaviour the spec
ascribes to the wrapper. -/
theorem spec_C7_clearDirectory_not_forwarded :
    FakeDiskTransaction.clearDirectory "dir" = [DiskEvent.createDirectory "dir"] ∧
    FakeDiskTransaction.clearDirectory "dir" ≠ passThroughClearDirectory "dir" := by
  refine ⟨rfl, by decide⟩

end DiskModel

namespace PlannerModel

/-- C9: `addColumn` throws exactly when `hasColumn` holds for the new
column's name; a throw leaves all four containers untouched, and a
successful call appends the name, the name-type pair, and (on any
state whose identifier-map keys are registered column names) the
name-to-identifier binding, leaving the alias set unchanged. -/
theorem spec_C9_addColumn (s : TableExpressionColumns) (column : NameAndTypePair)
    (ident : String)
    (hwf : ∀ k ∈ s.column_name_to_column_identifier.map Prod.fst, k ∈ s.columns_names) :
    ((TableExpressionColumns.addColumn s column ident).2.isSome ↔
      TableExpressionColumns.hasColumn s column.name = true) ∧
    ((TableExpressionColumns.addColumn s column ident).2.isSome →
      (TableExpressionColumns.addColumn s column ident).1 = s) ∧
    (TableExpressionColumns.hasColumn s column.name = false →
      (TableExpressionColumns.addColumn s column ident).1.columns = s.columns ++ [column] ∧
      (TableExpressionColumns.addColumn s column ident).1.columns_names =
        s.columns_names ++ [column.name] ∧
      (TableExpressionColumns.addColumn s column ident).1.alias_columns_names =
        s.alias_columns_names ∧
      (TableExpressionColumns.addColumn s column ident).1.column_name_to_column_identifier =
        s.column_name_to_column_identifier ++ [(column.name, ident)]) := by
  by_cases h : TableExpressionColumns.hasColumn s column.name = true
  · simp [TableExpressionColumns.addColumn, h]
  · have h' : TableExpressionColumns.hasColumn s column.name = false := by
      cases hc : TableExpressionColumns.hasColumn s column.name
      · rfl
      · exact absurd hc h
    have hcn : s.columns_names.contains column.name = false := by
      unfold TableExpressionColumns.hasColumn at h'
      cases hx : s.columns_names.contains column.name
      · rfl
      · rw [hx] at h'; simp at h'
    have hmem : column.name ∉ s.columns_names := by
      intro hm
      have hc : s.columns_names.contains column.name = true := by simpa using hm
      rw [hc] at hcn; cases hcn
    have hmap :
        (s.column_name_to_column_identifier.map Prod.fst).contains column.name = false := by
      cases hx : (s.column_name_to_column_identifier.map Prod.fst).contains column.name
      · rfl
      · have hk : column.name ∈ s.column_name_to_column_identifier.map Prod.fst := by
          simpa using hx
        exact absurd (hwf column.name hk) hmem
    simp [TableExpressionColumns.addColumn, h', nsInsert, mapEmplace, hcn, hmap]
    refine ⟨hmem, ?_⟩
    intro x hx
    exact absurd (hwf column.name (List.mem_map_of_mem Prod.fst hx)) hmem

/-- Concrete planner state for the C9 witness: one registered column
`a` with identifier `id_a`. -/
def s9 : TableExpressionColumns :=
  { columns := [{ name := "a", type := "UInt8" }], columns_names := ["a"],
    alias_columns_names := [],
    column_name_to_column_identifier := [("a", "id_a")] }

/-- A fresh column `b` to add in the C9 witness. -/
def col9 : NameAndTypePair := { name := "b", type := "String" }

/-- Witness for C9: adding fresh column `b` to `s9`. -/
theorem spec_C9_witness :
    ((TableExpressionColumns.addColumn s9 col9 "id_b").2.isSome ↔
      TableExpressionColumns.hasColumn s9 col9.name = true) ∧
    ((TableExpressionColumns.addColumn s9 col9 "id_b").2.isSome →
      (TableExpressionColumns.addColumn s9 col9 "id_b").1 = s9) ∧
    (TableExpressionColumns.hasColumn s9 col9.name = false →
      (TableExpressionColumns.addColumn s9 col9 "id_b").1.columns = s9.columns ++ [col9] ∧
      (TableExpressionColumns.addColumn s9 col9 "id_b").1.columns_names =
        s9.columns_names ++ [col9.name] ∧
      (TableExpressionColumns.addColumn s9 col9 "id_b").1.alias_columns_names =
        s9.alias_columns_names ∧
      (TableExpressionColumns.addColumn s9 col9 "id_b").1.column_name_to_column_identifier =
        s9.column_name_to_column_identifier ++ [(col9.name, "id_b")]) :=
  spec_C9_addColumn s9 col9 "id_b" (by decide)

/-- C10: `getColumnIdentifierOrThrow` raises exactly when
`getColumnIdentifierOrNull` returns null, and when the name is
registered both return the same identifier; both are pure accessors of
the same state. -/
theorem spec_C10_identifier_accessors (s : TableExpressionColumns) (column_name : String) :
    ((∃ e, TableExpressionColumns.getColumnIdentifierOrThrow s column_name =
        Except.error e) ↔
      TableExpressionColumns.getColumnIdentifierOrNull s column_name = none) ∧
    (∀ v, TableExpressionColumns.getColumnIdentifierOrThrow s column_name = Except.ok v ↔
      TableExpressionColumns.getColumnIdentifierOrNull s column_name = some v) := by
  cases hx : s.column_name_to_column_identifier.lookup column_name <;>
    simp [TableExpressionColumns.getColumnIdentifierOrThrow,
      TableExpressionColumns.getColumnIdentifierOrNull, hx]

end PlannerModel
